import Mathlib

/-!
Verification of the exact/symbolic real-number core (`src/core/src/num/real.rs`).

A `Real` is either an exact rational (`Simple`) or an exact rational multiple
of π (`Pi`).  Operations take a cooperative-cancellation collaborator; we model
the collaborator's poll result as a `Bool` (`true` means "interrupted at every
poll", `false` is the never-interrupting collaborator `Never`), and fallible
results as `Except` over an explicit error sum `IntErr` mirroring the source's
`IntErr<E, I>` (a math error `E`, or the interrupt marker).

The exact-rational bignum primitive (`BigRat`, in `src/core/src/num/bigrat.rs`,
not part of the sources under verification) is modelled by `ℚ` together with the
contract the specification states for it.
-/

namespace Fend

/-- Error channel of the source's `IntErr<E, I>`: either a math error `E` or a
cooperative-cancellation interrupt. The source's `Never` becomes `Empty`. -/
inductive IntErr (E : Type) where
  | err : E → IntErr E
  | interrupt : IntErr E
  deriving DecidableEq

/-- The distinguished divide-by-zero marker (`crate::num::DivideByZero`). -/
inductive DivideByZero where
  | divideByZero : DivideByZero
  deriving DecidableEq

/-- Conversion applied by the `?` operator when an infallible-except-cancellation
result (`IntErr<Never, I>`) is propagated into a context with a wider error
type: the math-error case is impossible. -/
def IntErr.ofNever {E : Type} : IntErr Empty → IntErr E
  | .err e => e.elim
  | .interrupt => .interrupt

/-- Modelled from the spec: the width of `usize` on the (64-bit) target;
`BigRat::try_as_usize` fails beyond this bound. -/
def usizeMax : ℕ := 2 ^ 64 - 1

namespace BigRat

/-- Modelled from the spec: the rational primitive's addition — exact rational
arithmetic that polls the cancellation collaborator (`bigrat.rs` is not among
the sources). -/
def add (a b : ℚ) (int : Bool) : Except (IntErr Empty) ℚ :=
  if int then .error .interrupt else .ok (a + b)

/-- Modelled from the spec: the rational primitive's subtraction. -/
def sub (a b : ℚ) (int : Bool) : Except (IntErr Empty) ℚ :=
  if int then .error .interrupt else .ok (a - b)

/-- Modelled from the spec: the rational primitive's multiplication. -/
def mul (a b : ℚ) (int : Bool) : Except (IntErr Empty) ℚ :=
  if int then .error .interrupt else .ok (a * b)

/-- Modelled from the spec: the rational primitive's division; it raises the
distinguished divide-by-zero marker exactly on a zero divisor. -/
def div (a b : ℚ) (int : Bool) : Except (IntErr DivideByZero) ℚ :=
  if int then .error .interrupt
  else if b = 0 then .error (.err .divideByZero)
  else .ok (a / b)

/-- Modelled from the spec: the rational primitive's canonical value ordering. -/
def cmp (a b : ℚ) : Ordering :=
  if a < b then .lt else if a = b then .eq else .gt

/-- Modelled from the spec: the rational primitive's integer-conversion check —
succeeds exactly on nonnegative integers representable in `usize`. -/
def try_as_usize (r : ℚ) (int : Bool) : Except (IntErr String) ℕ :=
  if int then .error .interrupt
  else if r.den = 1 ∧ 0 ≤ r.num ∧ r.num ≤ (usizeMax : ℤ) then .ok r.num.toNat
  else .error (.err "cannot convert to integer")

/-- Modelled from the spec: the rational primitive's sine approximation routine.
Its numeric behaviour is opaque to this core, so it is passed in as the function
`ratSin` (value together with the primitive's own exactness flag); only the
cancellation poll is modelled here. -/
def sin (ratSin : ℚ → ℚ × Bool) (r : ℚ) (int : Bool) :
    Except (IntErr Empty) (ℚ × Bool) :=
  if int then .error .interrupt else .ok (ratSin r)

end BigRat

/-- The two closed representational forms (`enum Pattern` in `real.rs`). -/
inductive Pattern where
  | Simple : ℚ → Pattern
  | Pi : ℚ → Pattern
  deriving DecidableEq

/-- `struct Real { pattern: Pattern }`. -/
structure Real where
  pattern : Pattern
  deriving DecidableEq

/-- `impl From<BigRat> for Real` (`Self::from(n)` wraps into `Simple`). -/
def Real.fromRat (n : ℚ) : Real := ⟨.Simple n⟩

/-- `impl From<u64> for Real`. -/
def Real.fromU64 (i : ℕ) : Real := ⟨.Simple (i : ℚ)⟩

/-- `impl Neg for Real`. -/
def Real.neg : Real → Real
  | ⟨.Simple s⟩ => Real.fromRat (-s)
  | ⟨.Pi n⟩ => ⟨.Pi (-n)⟩

/-- The fixed rational stand-in for π used by `Real::approximate`
(`3_141_592_653_589_793_238 / 1_000_000_000_000_000_000`). -/
def piApprox : ℚ := 3141592653589793238 / 1000000000000000000

/-- `Real::approximate`: `Simple(s)` is returned unchanged; `Pi(n)` collapses to
`n * piApprox`.  The divide-by-zero arm of the constant division is unreachable
(the denominator constant is nonzero); the source panics there via
`IntErr::unwrap`, so only the interrupt case is propagated. -/
def Real.approximate (x : Real) (int : Bool) : Except (IntErr Empty) ℚ :=
  match x.pattern with
  | .Simple s => .ok s
  | .Pi n =>
    match BigRat.div 3141592653589793238 1000000000000000000 int with
    | .error _ => .error .interrupt
    | .ok pi => BigRat.mul n pi int

/-- The value of `approximate` under the never-interrupting collaborator
(`crate::interrupt::Never`), as used (and `unwrap`ped) by `Ord::cmp`; the
default is never taken (see `Real.approximate_false`). -/
def Real.approxNever (x : Real) : ℚ :=
  ((x.approximate false).toOption).getD 0

/-- `impl Ord for Real`: same-variant pairs compare their rational factors;
cross-variant pairs approximate both sides under the internal
never-interrupting collaborator first. -/
def Real.cmp (x y : Real) : Ordering :=
  match x.pattern, y.pattern with
  | .Simple a, .Simple b => BigRat.cmp a b
  | .Pi a, .Pi b => BigRat.cmp a b
  | _, _ => BigRat.cmp x.approxNever y.approxNever

/-- `impl PartialEq for Real`: `self.cmp(other) == Ordering::Equal`. -/
def Real.beq (x y : Real) : Bool := x.cmp y == Ordering.eq

/-- `Real::try_as_usize`. -/
def Real.try_as_usize (x : Real) (int : Bool) : Except (IntErr String) ℕ :=
  match x.pattern with
  | .Simple s => BigRat.try_as_usize s int
  | .Pi n =>
    if n = 0 then .ok 0
    else .error (.err "Number cannot be converted to an integer")

/-- `Real::div`. -/
def Real.div (x y : Real) (int : Bool) :
    Except (IntErr DivideByZero) (Real × Bool) :=
  match x.pattern with
  | .Simple a =>
    match y.pattern with
    | .Simple b => (BigRat.div a b int).map (fun r => (Real.fromRat r, true))
    | .Pi _ =>
      match y.approximate int with
      | .error e => .error e.ofNever
      | .ok approx =>
        (BigRat.div a approx int).map (fun r => (Real.fromRat r, false))
  | .Pi a =>
    match y.pattern with
    | .Simple b => (BigRat.div a b int).map (fun r => ((⟨.Pi r⟩ : Real), true))
    | .Pi b => (BigRat.div a b int).map (fun r => (Real.fromRat r, true))

/-- `Real::mul`: the only mixed collapse is `Pi * Pi`, which approximates the
right operand and keeps the `Pi` variant, with no exactness flag returned. -/
def Real.mul (x y : Real) (int : Bool) : Except (IntErr Empty) Real :=
  match x.pattern with
  | .Simple a =>
    match y.pattern with
    | .Simple b => (BigRat.mul a b int).map Real.fromRat
    | .Pi b => (BigRat.mul a b int).map (fun r => (⟨.Pi r⟩ : Real))
  | .Pi a =>
    match y.pattern with
    | .Simple b => (BigRat.mul a b int).map (fun r => (⟨.Pi r⟩ : Real))
    | .Pi _ =>
      match y.approximate int with
      | .error e => .error e
      | .ok approx => (BigRat.mul a approx int).map (fun r => (⟨.Pi r⟩ : Real))

/-- `Real::sub`, with its zero fast paths (`rhs == 0` first, then `self == 0`). -/
def Real.sub (x y : Real) (int : Bool) : Except (IntErr Empty) (Real × Bool) :=
  if y.beq (Real.fromU64 0) then .ok (x, true)
  else if x.beq (Real.fromU64 0) then .ok (y.neg, true)
  else
    match x.pattern, y.pattern with
    | .Simple a, .Simple b =>
      (BigRat.sub a b int).map (fun r => (Real.fromRat r, true))
    | .Pi a, .Pi b =>
      (BigRat.sub a b int).map (fun r => ((⟨.Pi r⟩ : Real), true))
    | _, _ =>
      match x.approximate int with
      | .error e => .error e
      | .ok a =>
        match y.approximate int with
        | .error e => .error e
        | .ok b => (BigRat.sub a b int).map (fun r => (Real.fromRat r, false))

/-- `Real::add`, with its zero fast paths (`self == 0` first, then `rhs == 0`);
exactness is implicit in the plain `Real` return. -/
def Real.add (x y : Real) (int : Bool) : Except (IntErr Empty) Real :=
  if x.beq (Real.fromU64 0) then .ok y
  else if y.beq (Real.fromU64 0) then .ok x
  else
    match x.pattern, y.pattern with
    | .Simple a, .Simple b => (BigRat.add a b int).map Real.fromRat
    | .Pi a, .Pi b => (BigRat.add a b int).map (fun r => (⟨.Pi r⟩ : Real))
    | _, _ =>
      match x.approximate int with
      | .error e => .error e
      | .ok a =>
        match y.approximate int with
        | .error e => .error e
        | .ok b => (BigRat.add a b int).map Real.fromRat

/-- The exact-resolution arm of `Real::sin` for a receiver `Pi(n)` with
`n ≥ 0`, written as a separate function: the source's single recursive call
(`sin(-x)` for `n < 0`) always lands here, so the recursion is inlined in
`Real.sin` below.  Both failure modes of `try_as_usize` (interrupt included)
fall through to the approximation arm, mirroring the source's `if let Ok(..)`. -/
def Real.sinPiNonneg (ratSin : ℚ → ℚ × Bool) (n : ℚ) (int : Bool) :
    Except (IntErr Empty) (Real × Bool) :=
  match BigRat.mul n 2 int with
  | .error e => .error e
  | .ok twoN =>
    match BigRat.try_as_usize twoN int with
    | .ok integer =>
      if integer % 2 = 0 then .ok (Real.fromRat 0, true)
      else if integer % 4 = 1 then .ok (Real.fromRat 1, true)
      else .ok ((Real.fromRat 1).neg, true)
    | .error _ =>
      match (Real.mk (.Pi n)).approximate int with
      | .error e => .error e
      | .ok a => (BigRat.sin ratSin a int).map (fun p => (Real.fromRat p.1, false))

/-- `Real::sin`: `Simple` forwards to the primitive's sine; `Pi(n)` with
`n < 0` computes the sine of the negation and negates the result, preserving
the inner exactness flag; `Pi(n)` with `n ≥ 0` resolves exact multiples of π/2
or falls back to approximation (`Real.sinPiNonneg`). -/
def Real.sin (ratSin : ℚ → ℚ × Bool) (x : Real) (int : Bool) :
    Except (IntErr Empty) (Real × Bool) :=
  match x.pattern with
  | .Simple s =>
    (BigRat.sin ratSin s int).map (fun p => (Real.fromRat p.1, p.2))
  | .Pi n =>
    if n < 0 then
      (Real.sinPiNonneg ratSin (-n) int).map (fun p => (p.1.neg, p.2))
    else Real.sinPiNonneg ratSin n int

/-- The rational factor stored inside either variant (the "underlying rational"
of §4.6 of the specification). -/
def Real.underlyingRat : Real → ℚ
  | ⟨.Simple r⟩ => r
  | ⟨.Pi n⟩ => n

theorem Real.pattern_mk (p : Pattern) : (Real.mk p).pattern = p := rfl

theorem piApprox_pos : 0 < piApprox := by norm_num [piApprox]

theorem piApprox_ne_zero : piApprox ≠ 0 := ne_of_gt piApprox_pos

theorem Real.approximate_simple (r : ℚ) (int : Bool) :
    Real.approximate ⟨.Simple r⟩ int = .ok r := rfl

theorem Real.approximate_pi_false (n : ℚ) :
    Real.approximate ⟨.Pi n⟩ false = .ok (n * piApprox) := by
  show (match BigRat.div 3141592653589793238 1000000000000000000 false with
    | .error _ => .error .interrupt
    | .ok pi => BigRat.mul n pi false) = Except.ok (n * piApprox)
  rw [BigRat.div, if_neg (by norm_num), if_neg (by norm_num)]
  rfl

theorem Real.approximate_pi_true (n : ℚ) :
    Real.approximate ⟨.Pi n⟩ true = .error .interrupt := rfl

theorem Real.approxNever_simple (r : ℚ) : Real.approxNever ⟨.Simple r⟩ = r := rfl

theorem Real.approxNever_pi (n : ℚ) :
    Real.approxNever ⟨.Pi n⟩ = n * piApprox := by
  rw [Real.approxNever, Real.approximate_pi_false]
  rfl

theorem Real.approximate_false (x : Real) :
    x.approximate false = .ok x.approxNever := by
  obtain ⟨p⟩ := x
  cases p with
  | Simple r => rfl
  | Pi n => rw [Real.approximate_pi_false, Real.approxNever_pi]

theorem BigRat.cmp_eq_iff (a b : ℚ) : BigRat.cmp a b = .eq ↔ a = b := by
  rw [BigRat.cmp]
  split_ifs with h1 h2
  · exact iff_of_false (by decide) (ne_of_lt h1)
  · exact iff_of_true rfl h2
  · exact iff_of_false (by decide) h2

theorem ordering_beq_eq (o : Ordering) : (o == Ordering.eq) = true ↔ o = Ordering.eq := by
  cases o <;> decide

theorem Real.cmp_simple_simple (a b : ℚ) :
    Real.cmp ⟨.Simple a⟩ ⟨.Simple b⟩ = BigRat.cmp a b := rfl

theorem Real.cmp_pi_pi (a b : ℚ) :
    Real.cmp ⟨.Pi a⟩ ⟨.Pi b⟩ = BigRat.cmp a b := rfl

theorem Real.cmp_simple_pi (a b : ℚ) :
    Real.cmp ⟨.Simple a⟩ ⟨.Pi b⟩ = BigRat.cmp a (b * piApprox) := by
  show BigRat.cmp (Real.approxNever ⟨.Simple a⟩) (Real.approxNever ⟨.Pi b⟩) = _
  rw [Real.approxNever_simple, Real.approxNever_pi]

theorem Real.cmp_pi_simple (a b : ℚ) :
    Real.cmp ⟨.Pi a⟩ ⟨.Simple b⟩ = BigRat.cmp (a * piApprox) b := by
  show BigRat.cmp (Real.approxNever ⟨.Pi a⟩) (Real.approxNever ⟨.Simple b⟩) = _
  rw [Real.approxNever_simple, Real.approxNever_pi]

theorem BigRat.add_false (a b : ℚ) : BigRat.add a b false = .ok (a + b) := rfl

theorem BigRat.sub_false (a b : ℚ) : BigRat.sub a b false = .ok (a - b) := rfl

theorem BigRat.mul_false (a b : ℚ) : BigRat.mul a b false = .ok (a * b) := rfl

theorem BigRat.div_false (a b : ℚ) (hb : b ≠ 0) :
    BigRat.div a b false = .ok (a / b) := by
  rw [BigRat.div, if_neg (by simp), if_neg hb]

theorem BigRat.div_false_zero (a : ℚ) :
    BigRat.div a 0 false = .error (.err .divideByZero) := by
  rw [BigRat.div, if_neg (by simp), if_pos rfl]

theorem except_map_ok {ε α β : Type} (f : α → β) (v : α) :
    (Except.ok v : Except ε α).map f = .ok (f v) := rfl

theorem except_map_error {ε α β : Type} (f : α → β) (e : ε) :
    (Except.error e : Except ε α).map f = .error e := rfl

theorem Real.beq_zero_iff (x : Real) :
    x.beq (Real.fromU64 0) = true ↔ x.underlyingRat = 0 := by
  obtain ⟨p⟩ := x
  have h0 : Real.fromU64 0 = ⟨.Simple 0⟩ := by
    rw [Real.fromU64]
    norm_num
  rw [Real.beq, h0]
  cases p with
  | Simple r =>
    rw [Real.cmp_simple_simple, Real.underlyingRat]
    rw [ordering_beq_eq, BigRat.cmp_eq_iff]
  | Pi n =>
    rw [Real.cmp_pi_simple, Real.underlyingRat]
    rw [ordering_beq_eq, BigRat.cmp_eq_iff, mul_eq_zero]
    simp [piApprox_ne_zero]

theorem Real.beq_zero_true (x : Real) (h : x.underlyingRat = 0) :
    x.beq (Real.fromU64 0) = true := (Real.beq_zero_iff x).mpr h

theorem Real.beq_zero_not_true (x : Real) (h : ¬ x.underlyingRat = 0) :
    ¬ x.beq (Real.fromU64 0) = true :=
  fun hc => h ((Real.beq_zero_iff x).mp hc)

theorem Real.div_eval_simple_simple (a b : ℚ) (int : Bool) :
    Real.div ⟨.Simple a⟩ ⟨.Simple b⟩ int =
      (BigRat.div a b int).map (fun r => (Real.fromRat r, true)) := rfl

theorem Real.div_eval_simple_pi (a b : ℚ) :
    Real.div ⟨.Simple a⟩ ⟨.Pi b⟩ false =
      (BigRat.div a (b * piApprox) false).map (fun r => (Real.fromRat r, false)) := by
  show (match (Real.mk (.Pi b)).approximate false with
    | .error e => (.error e.ofNever : Except (IntErr DivideByZero) (Real × Bool))
    | .ok approx =>
      (BigRat.div a approx false).map (fun r => (Real.fromRat r, false))) =
    (BigRat.div a (b * piApprox) false).map (fun r => (Real.fromRat r, false))
  rw [Real.approximate_pi_false]

theorem Real.div_eval_pi_simple (a b : ℚ) (int : Bool) :
    Real.div ⟨.Pi a⟩ ⟨.Simple b⟩ int =
      (BigRat.div a b int).map (fun r => ((⟨.Pi r⟩ : Real), true)) := rfl

theorem Real.div_eval_pi_pi (a b : ℚ) (int : Bool) :
    Real.div ⟨.Pi a⟩ ⟨.Pi b⟩ int =
      (BigRat.div a b int).map (fun r => (Real.fromRat r, true)) := rfl

end Fend

/-- Claim C2: for all rationals `m` and `n`, `PiMultiple(m) + PiMultiple(n)`
yields `PiMultiple(m+n)` (exactness implicit in the plain-`Real` return) and
`PiMultiple(m) - PiMultiple(n)` yields `(PiMultiple(m-n), exact=true)`,
computed symbolically on the rational factors without approximating π. -/
theorem C2_pi_add_sub_exact (m n : ℚ) :
    Fend.Real.add ⟨.Pi m⟩ ⟨.Pi n⟩ false = .ok ⟨.Pi (m + n)⟩ ∧
    Fend.Real.sub ⟨.Pi m⟩ ⟨.Pi n⟩ false = .ok (⟨.Pi (m - n)⟩, true) := by
  constructor
  · rw [Fend.Real.add]
    by_cases hm : m = 0
    · rw [if_pos (Fend.Real.beq_zero_true ⟨.Pi m⟩ hm), hm, zero_add]
    · rw [if_neg (Fend.Real.beq_zero_not_true ⟨.Pi m⟩ hm)]
      by_cases hn : n = 0
      · rw [if_pos (Fend.Real.beq_zero_true ⟨.Pi n⟩ hn), hn, add_zero]
      · rw [if_neg (Fend.Real.beq_zero_not_true ⟨.Pi n⟩ hn)]
        show (Fend.BigRat.add m n false).map _ = _
        rw [Fend.BigRat.add_false, Fend.except_map_ok]
  · rw [Fend.Real.sub]
    by_cases hn : n = 0
    · rw [if_pos (Fend.Real.beq_zero_true ⟨.Pi n⟩ hn), hn, sub_zero]
    · rw [if_neg (Fend.Real.beq_zero_not_true ⟨.Pi n⟩ hn)]
      by_cases hm : m = 0
      · rw [if_pos (Fend.Real.beq_zero_true ⟨.Pi m⟩ hm), hm, zero_sub]
        rfl
      · rw [if_neg (Fend.Real.beq_zero_not_true ⟨.Pi m⟩ hm)]
        show (Fend.BigRat.sub m n false).map _ = _
        rw [Fend.BigRat.sub_false, Fend.except_map_ok]

/-- Claim C5: dividing `PiMultiple(a)` by `PiMultiple(b)` for nonzero rationals
`a`, `b` cancels π and returns `Simple(a/b)` with exact=true. -/
theorem C5_div_pi_pi_cancels (a b : ℚ) (ha : a ≠ 0) (hb : b ≠ 0) :
    Fend.Real.div ⟨.Pi a⟩ ⟨.Pi b⟩ false = .ok (⟨.Simple (a / b)⟩, true) := by
  show (Fend.BigRat.div a b false).map _ = _
  rw [Fend.BigRat.div_false a b hb, Fend.except_map_ok]
  rfl

/-- Witness for C5 at `a = 2`, `b = 3`. -/
theorem C5_div_pi_pi_cancels_witness :
    Fend.Real.div ⟨.Pi 2⟩ ⟨.Pi 3⟩ false = .ok (⟨.Simple (2 / 3)⟩, true) :=
  C5_div_pi_pi_cancels 2 3 (by norm_num) (by norm_num)

/-- Claim C6: `div` fails with the distinguished divide-by-zero marker exactly
when the divisor's underlying rational is zero (either variant of divisor, any
variant of numerator); every other failure of `div` is the cancellation
marker. -/
theorem C6_div_by_zero_exactly :
    ∀ x y : Fend.Real,
      (Fend.Real.div x y false = .error (.err .divideByZero) ↔
        y.underlyingRat = 0) ∧
      (∀ (int : Bool) (e : Fend.IntErr Fend.DivideByZero),
        Fend.Real.div x y int = .error e →
          e = .err .divideByZero ∨ e = .interrupt) := by
  intro x y
  constructor
  · obtain ⟨px⟩ := x
    obtain ⟨py⟩ := y
    cases px with
    | Simple a =>
      cases py with
      | Simple b =>
        show (Fend.BigRat.div a b false).map _ = _ ↔ b = 0
        by_cases hb : b = 0
        · rw [hb, Fend.BigRat.div_false_zero, Fend.except_map_error]
          simp
        · rw [Fend.BigRat.div_false a b hb, Fend.except_map_ok]
          simp [hb]
      | Pi b =>
        rw [Fend.Real.div_eval_simple_pi,
          show (Fend.Real.mk (.Pi b)).underlyingRat = b from rfl]
        by_cases hb : b = 0
        · rw [hb, zero_mul, Fend.BigRat.div_false_zero, Fend.except_map_error]
          simp
        · rw [Fend.BigRat.div_false a _ (mul_ne_zero hb Fend.piApprox_ne_zero),
            Fend.except_map_ok]
          simp [hb]
    | Pi a =>
      cases py with
      | Simple b =>
        show (Fend.BigRat.div a b false).map _ = _ ↔ b = 0
        by_cases hb : b = 0
        · rw [hb, Fend.BigRat.div_false_zero, Fend.except_map_error]
          simp
        · rw [Fend.BigRat.div_false a b hb, Fend.except_map_ok]
          simp [hb]
      | Pi b =>
        show (Fend.BigRat.div a b false).map _ = _ ↔ b = 0
        by_cases hb : b = 0
        · rw [hb, Fend.BigRat.div_false_zero, Fend.except_map_error]
          simp
        · rw [Fend.BigRat.div_false a b hb, Fend.except_map_ok]
          simp [hb]
  · intro int e _
    cases e with
    | err d => cases d; exact Or.inl rfl
    | interrupt => exact Or.inr rfl

/-- Witness for C6: dividing `PiMultiple(1)` by `Simple(0)` raises the
divide-by-zero marker. -/
theorem C6_div_by_zero_exactly_witness :
    Fend.Real.div ⟨.Pi 1⟩ ⟨.Simple 0⟩ false =
      .error (.err .divideByZero) :=
  (C6_div_by_zero_exactly ⟨.Pi 1⟩ ⟨.Simple 0⟩).1.mpr rfl

/-- Claim C8: `approximate` maps `Simple(r)` to `r` unchanged and
`PiMultiple(n)` to `n * piApprox`, where `piApprox` is the single fixed
rational `3_141_592_653_589_793_238 / 1_000_000_000_000_000_000` (π to 18
significant decimal digits); it can fail only with the cancellation signal,
never for numeric reasons. -/
theorem C8_approximate_spec :
    (∀ (r : ℚ) (int : Bool), Fend.Real.approximate ⟨.Simple r⟩ int = .ok r) ∧
    (∀ n : ℚ, Fend.Real.approximate ⟨.Pi n⟩ false = .ok (n * Fend.piApprox)) ∧
    Fend.piApprox = 3141592653589793238 / 1000000000000000000 ∧
    (∀ n : ℚ, Fend.Real.approximate ⟨.Pi n⟩ true = .error .interrupt) ∧
    (∀ (x : Fend.Real) (int : Bool),
      (∃ q, Fend.Real.approximate x int = .ok q) ∨
        Fend.Real.approximate x int = .error .interrupt) := by
  refine ⟨Fend.Real.approximate_simple, Fend.Real.approximate_pi_false, rfl,
    Fend.Real.approximate_pi_true, ?_⟩
  intro x int
  obtain ⟨p⟩ := x
  cases p with
  | Simple r => exact Or.inl ⟨r, rfl⟩
  | Pi n =>
    cases int with
    | false => exact Or.inl ⟨n * Fend.piApprox, Fend.Real.approximate_pi_false n⟩
    | true => exact Or.inr (Fend.Real.approximate_pi_true n)

/-- Claim C9: `try_as_usize` on `PiMultiple(0)` succeeds with `0`; on
`PiMultiple(n)` with `n ≠ 0` it fails with the descriptive cannot-convert
error; on `Simple(r)` it delegates to the rational primitive's
integer-conversion check. -/
theorem C9_try_as_usize_spec :
    (∀ int : Bool, Fend.Real.try_as_usize ⟨.Pi 0⟩ int = .ok 0) ∧
    (∀ (n : ℚ) (int : Bool), n ≠ 0 →
      Fend.Real.try_as_usize ⟨.Pi n⟩ int =
        .error (.err "Number cannot be converted to an integer")) ∧
    (∀ (r : ℚ) (int : Bool),
      Fend.Real.try_as_usize ⟨.Simple r⟩ int = Fend.BigRat.try_as_usize r int) := by
  refine ⟨?_, ?_, fun r int => rfl⟩
  · intro int
    show (if (0 : ℚ) = 0 then (.ok 0 : Except (Fend.IntErr String) ℕ)
      else .error (.err "Number cannot be converted to an integer")) = .ok 0
    rw [if_pos rfl]
  · intro n int hn
    show (if n = 0 then (.ok 0 : Except (Fend.IntErr String) ℕ)
      else .error (.err "Number cannot be converted to an integer")) =
        .error (.err "Number cannot be converted to an integer")
    rw [if_neg hn]

/-- Witness for C9 at `n = 1`. -/
theorem C9_try_as_usize_spec_witness :
    Fend.Real.try_as_usize ⟨.Pi 1⟩ false =
      .error (.err "Number cannot be converted to an integer") :=
  C9_try_as_usize_spec.2.1 1 false (by norm_num)

/-- Claim C4 counterexample: for `x = PiMultiple(0)` and zero operand
`Simple(0)`, `x + 0` returns the zero operand `Simple(0)`, which is not the
operand `x` unchanged (the two zeros have distinct representations). -/
theorem C4_zero_fast_path_counterexample :
    Fend.Real.add ⟨.Pi 0⟩ ⟨.Simple 0⟩ false = .ok ⟨.Simple 0⟩ ∧
    Fend.Real.mk (.Simple 0) ≠ ⟨.Pi 0⟩ := by
  constructor
  · rw [Fend.Real.add, if_pos (Fend.Real.beq_zero_true ⟨.Pi 0⟩ rfl)]
  · intro h
    simp only [Fend.Real.mk.injEq] at h
    exact Fend.Pattern.noConfusion h

/-- Claim C4 (amended): `0 + x` (zero of either variant) returns `x` unchanged
and exact for every `x`; `x + 0` returns `x` unchanged whenever `x` is not
zero-valued; when `x` is itself zero-valued, `x + z` returns the operand `z`
(value-equal to `x`).  All cases hold under any interrupt state: the fast path
performs no cancellable approximation (the zero test compares via the internal
never-interrupting context). -/
theorem C4_zero_fast_path_amended :
    ∀ (x : Fend.Real) (int : Bool),
      Fend.Real.add ⟨.Simple 0⟩ x int = .ok x ∧
      Fend.Real.add ⟨.Pi 0⟩ x int = .ok x ∧
      (¬ x.beq (Fend.Real.fromU64 0) = true →
        Fend.Real.add x ⟨.Simple 0⟩ int = .ok x ∧
        Fend.Real.add x ⟨.Pi 0⟩ int = .ok x) ∧
      (x.beq (Fend.Real.fromU64 0) = true →
        ∀ z : Fend.Real, Fend.Real.add x z int = .ok z) := by
  intro x int
  refine ⟨?_, ?_, ?_, ?_⟩
  · rw [Fend.Real.add, if_pos (Fend.Real.beq_zero_true ⟨.Simple 0⟩ rfl)]
  · rw [Fend.Real.add, if_pos (Fend.Real.beq_zero_true ⟨.Pi 0⟩ rfl)]
  · intro h
    constructor
    · rw [Fend.Real.add, if_neg h, if_pos (Fend.Real.beq_zero_true ⟨.Simple 0⟩ rfl)]
    · rw [Fend.Real.add, if_neg h, if_pos (Fend.Real.beq_zero_true ⟨.Pi 0⟩ rfl)]
  · intro h z
    rw [Fend.Real.add, if_pos h]

/-- Witness for C4 (amended) at `x = Simple(5)` and at the zero-valued
`x = PiMultiple(0)`. -/
theorem C4_zero_fast_path_amended_witness :
    (¬ (Fend.Real.mk (.Simple 5)).beq (Fend.Real.fromU64 0) = true) ∧
    Fend.Real.add ⟨.Simple 5⟩ ⟨.Simple 0⟩ false = .ok ⟨.Simple 5⟩ ∧
    Fend.Real.add ⟨.Pi 0⟩ ⟨.Simple 5⟩ false = .ok ⟨.Simple 5⟩ := by
  have h5 : ¬ (Fend.Real.mk (.Simple 5)).beq (Fend.Real.fromU64 0) = true :=
    Fend.Real.beq_zero_not_true ⟨.Simple 5⟩ (show ¬ (5 : ℚ) = 0 by norm_num)
  exact ⟨h5, ((C4_zero_fast_path_amended ⟨.Simple 5⟩ false).2.2.1 h5).1,
    (C4_zero_fast_path_amended ⟨.Simple 5⟩ false).2.1⟩

/-- Claim C7: comparison of Reals is total and never fails or propagates a
cancellation signal: same-variant pairs compare rational factors directly,
cross-variant pairs compare the approximations taken under the internal
never-interrupting context, whose error branch (and hence the `unwrap`) is
unreachable — `approximate` under that context always succeeds; equality is
comparison against `Ordering::Equal`. -/
theorem C7_cmp_total_never_fails :
    (∀ a b : ℚ, Fend.Real.cmp ⟨.Simple a⟩ ⟨.Simple b⟩ = Fend.BigRat.cmp a b) ∧
    (∀ a b : ℚ, Fend.Real.cmp ⟨.Pi a⟩ ⟨.Pi b⟩ = Fend.BigRat.cmp a b) ∧
    (∀ x : Fend.Real, x.approximate false = .ok x.approxNever) ∧
    (∀ a b : ℚ, Fend.Real.cmp ⟨.Simple a⟩ ⟨.Pi b⟩ =
      Fend.BigRat.cmp a (b * Fend.piApprox)) ∧
    (∀ a b : ℚ, Fend.Real.cmp ⟨.Pi a⟩ ⟨.Simple b⟩ =
      Fend.BigRat.cmp (a * Fend.piApprox) b) ∧
    (∀ x y : Fend.Real, x.beq y = (Fend.Real.cmp x y == Ordering.eq)) :=
  ⟨Fend.Real.cmp_simple_simple, Fend.Real.cmp_pi_pi, Fend.Real.approximate_false,
    Fend.Real.cmp_simple_pi, Fend.Real.cmp_pi_simple, fun _ _ => rfl⟩

namespace Fend

theorem BigRat.try_as_usize_natCast (k : ℕ) (hk : k ≤ usizeMax) :
    BigRat.try_as_usize (k : ℚ) false = .ok k := by
  have hden : ((k : ℚ)).den = 1 := Rat.den_natCast k
  have hnum : ((k : ℚ)).num = (k : ℤ) := Rat.num_natCast k
  rw [BigRat.try_as_usize, if_neg (by simp),
    if_pos ⟨hden, by rw [hnum]; exact Int.ofNat_nonneg k,
      by rw [hnum]; exact_mod_cast hk⟩, hnum, Int.toNat_natCast]

theorem BigRat.try_as_usize_fail (r : ℚ)
    (h : ¬(r.den = 1 ∧ 0 ≤ r.num ∧ r.num ≤ (usizeMax : ℤ))) :
    BigRat.try_as_usize r false = .error (.err "cannot convert to integer") := by
  rw [BigRat.try_as_usize, if_neg (by simp), if_neg h]

theorem Real.sin_pi_nonneg_eval (ratSin : ℚ → ℚ × Bool) (n : ℚ) (int : Bool)
    (hn : ¬ n < 0) :
    Real.sin ratSin ⟨.Pi n⟩ int = Real.sinPiNonneg ratSin n int := by
  show (if n < 0 then (Real.sinPiNonneg ratSin (-n) int).map
      (fun (p : Real × Bool) => (p.1.neg, p.2))
    else Real.sinPiNonneg ratSin n int) = _
  rw [if_neg hn]

theorem Real.sin_pi_neg_eval (ratSin : ℚ → ℚ × Bool) (n : ℚ) (int : Bool)
    (hn : n < 0) :
    Real.sin ratSin ⟨.Pi n⟩ int =
      (Real.sin ratSin ⟨.Pi (-n)⟩ int).map (fun p => (p.1.neg, p.2)) := by
  have h1 : ¬ (-n) < 0 := not_lt.mpr (le_of_lt (neg_pos.mpr hn))
  rw [Real.sin_pi_nonneg_eval ratSin (-n) int h1]
  show (if n < 0 then (Real.sinPiNonneg ratSin (-n) int).map
      (fun (p : Real × Bool) => (p.1.neg, p.2))
    else Real.sinPiNonneg ratSin n int) = _
  rw [if_pos hn]

theorem Real.sinPiNonneg_exact (ratSin : ℚ → ℚ × Bool) (k : ℕ)
    (hk : k ≤ usizeMax) :
    Real.sinPiNonneg ratSin ((k : ℚ) / 2) false =
      (if k % 2 = 0 then .ok (Real.fromRat 0, true)
       else if k % 4 = 1 then .ok (Real.fromRat 1, true)
       else .ok ((Real.fromRat 1).neg, true)) := by
  have h2 : ((k : ℚ) / 2) * 2 = (k : ℚ) := div_mul_cancel₀ _ two_ne_zero
  show (match BigRat.try_as_usize (((k : ℚ) / 2) * 2) false with
    | .ok integer =>
      if integer % 2 = 0 then (.ok (Real.fromRat 0, true) : Except (IntErr Empty) (Real × Bool))
      else if integer % 4 = 1 then .ok (Real.fromRat 1, true)
      else .ok ((Real.fromRat 1).neg, true)
    | .error _ =>
      (match (Real.mk (.Pi ((k : ℚ) / 2))).approximate false with
       | .error e => .error e
       | .ok a => (BigRat.sin ratSin a false).map (fun (p : ℚ × Bool) => (Real.fromRat p.1, false)))) = _
  rw [h2, BigRat.try_as_usize_natCast k hk]

theorem Real.sinPiNonneg_approx (ratSin : ℚ → ℚ × Bool) (n : ℚ)
    (hfail : ¬((n * 2 : ℚ).den = 1 ∧ 0 ≤ (n * 2 : ℚ).num ∧
      (n * 2 : ℚ).num ≤ (usizeMax : ℤ))) :
    Real.sinPiNonneg ratSin n false =
      .ok (Real.fromRat (ratSin (n * piApprox)).1, false) := by
  show (match BigRat.try_as_usize (n * 2) false with
    | .ok integer =>
      if integer % 2 = 0 then (.ok (Real.fromRat 0, true) : Except (IntErr Empty) (Real × Bool))
      else if integer % 4 = 1 then .ok (Real.fromRat 1, true)
      else .ok ((Real.fromRat 1).neg, true)
    | .error _ =>
      (match (Real.mk (.Pi n)).approximate false with
       | .error e => .error e
       | .ok a => (BigRat.sin ratSin a false).map (fun (p : ℚ × Bool) => (Real.fromRat p.1, false)))) = _
  rw [BigRat.try_as_usize_fail _ hfail]
  show (match (Real.mk (.Pi n)).approximate false with
    | .error e => (.error e : Except (IntErr Empty) (Real × Bool))
    | .ok a => (BigRat.sin ratSin a false).map (fun (p : ℚ × Bool) => (Real.fromRat p.1, false))) = _
  rw [Real.approximate_pi_false]
  rfl

end Fend

/-- Claim C3 counterexample: for the receiver `PiMultiple(2^63)` we have
`2n = 2^64`, a nonnegative even integer, so the claim demands the exact result
`(0, exact=true)`; the code instead takes the approximation path (since `2^64`
does not fit in `usize`) and returns exact=false. -/
theorem C3_sin_pi_exact_counterexample :
    Fend.Real.sin (fun _ => ((0 : ℚ), false)) ⟨.Pi ((2 : ℚ) ^ 63)⟩ false =
      .ok (⟨.Simple 0⟩, false) ∧
    (.ok (⟨.Simple 0⟩, false) :
      Except (Fend.IntErr Empty) (Fend.Real × Bool)) ≠ .ok (⟨.Simple 0⟩, true) ∧
    ((2 : ℚ) ^ 63) * 2 = ((2 ^ 64 : ℕ) : ℚ) ∧ (2 ^ 64) % 2 = 0 := by
  refine ⟨?_, by simp, by push_cast; ring, by norm_num⟩
  have h0 : ¬ ((2 : ℚ) ^ 63 < 0) := not_lt.mpr (by positivity)
  rw [Fend.Real.sin_pi_nonneg_eval _ _ _ h0, Fend.Real.sinPiNonneg_approx]
  · rfl
  · rintro ⟨hden, hpos, hle⟩
    rw [show ((2 : ℚ) ^ 63) * 2 = ((2 ^ 64 : ℕ) : ℚ) by push_cast; ring,
      Rat.num_natCast] at hle
    have h64 : (2 : ℕ) ^ 64 ≤ Fend.usizeMax := by exact_mod_cast hle
    norm_num [Fend.usizeMax] at h64

/-- Claim C3 (amended): for a receiver `PiMultiple(n)`: if `n < 0`, `sin`
returns the negation of `sin` of the negated receiver, preserving the inner
exactness flag; if `n ≥ 0` and `2n` is a nonnegative integer `k` representable
as `usize` (`k ≤ usize::MAX`), `sin` resolves exactly by case on `k mod 4`
(`k` even → 0, `k ≡ 1 mod 4` → 1, otherwise → −1), each exact=true; otherwise
(including a `2n` that is an integer but exceeds `usize::MAX`) it approximates
the angle, forwards to the rational primitive's sine, and returns
exact=false. -/
theorem C3_sin_pi_spec_amended :
    (∀ (ratSin : ℚ → ℚ × Bool) (int : Bool) (n : ℚ), n < 0 →
      Fend.Real.sin ratSin ⟨.Pi n⟩ int =
        (Fend.Real.sin ratSin ⟨.Pi (-n)⟩ int).map
          (fun (p : Fend.Real × Bool) => (p.1.neg, p.2))) ∧
    (∀ (ratSin : ℚ → ℚ × Bool) (k : ℕ), k ≤ Fend.usizeMax →
      Fend.Real.sin ratSin ⟨.Pi ((k : ℚ) / 2)⟩ false =
        (if k % 2 = 0 then .ok (⟨.Simple 0⟩, true)
         else if k % 4 = 1 then .ok (⟨.Simple 1⟩, true)
         else .ok (⟨.Simple (-1)⟩, true))) ∧
    (∀ (ratSin : ℚ → ℚ × Bool) (n : ℚ), 0 ≤ n →
      (∀ k : ℕ, k ≤ Fend.usizeMax → ¬ n * 2 = (k : ℚ)) →
      Fend.Real.sin ratSin ⟨.Pi n⟩ false =
        .ok (⟨.Simple (ratSin (n * Fend.piApprox)).1⟩, false)) := by
  refine ⟨fun ratSin int n hn => Fend.Real.sin_pi_neg_eval ratSin n int hn, ?_, ?_⟩
  · intro ratSin k hk
    have h0 : ¬ ((k : ℚ) / 2 < 0) := not_lt.mpr (by positivity)
    rw [Fend.Real.sin_pi_nonneg_eval _ _ _ h0,
      Fend.Real.sinPiNonneg_exact ratSin k hk]
    rfl
  · intro ratSin n hpos hnotint
    have h0 : ¬ (n < 0) := not_lt.mpr hpos
    rw [Fend.Real.sin_pi_nonneg_eval _ _ _ h0, Fend.Real.sinPiNonneg_approx]
    · rfl
    · rintro ⟨hden, hnneg, hle⟩
      have h1 : ((n * 2).num : ℚ) = n * 2 := (Rat.den_eq_one_iff _).mp hden
      have h2 : (((n * 2).num.toNat : ℤ)) = (n * 2).num := Int.toNat_of_nonneg hnneg
      have hk : ((n * 2).num.toNat : ℚ) = n * 2 := by
        calc ((n * 2).num.toNat : ℚ) = (((n * 2).num.toNat : ℤ) : ℚ) := by norm_cast
          _ = ((n * 2).num : ℚ) := by rw [h2]
          _ = n * 2 := h1
      exact hnotint _ (Int.toNat_le.mpr hle) hk.symm

/-- Witness for C3 (amended): `sin(π/2) = 1` exact, and
`sin(−π/2) = −1` exact via the negation branch. -/
theorem C3_sin_pi_spec_amended_witness :
    (-(((1 : ℕ) : ℚ) / 2) < 0) ∧ (1 ≤ Fend.usizeMax) ∧
    Fend.Real.sin (fun _ => ((0 : ℚ), false)) ⟨.Pi (((1 : ℕ) : ℚ) / 2)⟩ false =
      .ok (⟨.Simple 1⟩, true) ∧
    Fend.Real.sin (fun _ => ((0 : ℚ), false)) ⟨.Pi (-(((1 : ℕ) : ℚ) / 2))⟩ false =
      .ok ((⟨.Simple 1⟩ : Fend.Real).neg, true) := by
  have h2 := C3_sin_pi_spec_amended.2.1 (fun _ => ((0 : ℚ), false)) 1
    (by norm_num [Fend.usizeMax])
  rw [if_neg (by norm_num), if_pos (by norm_num)] at h2
  have h1 := C3_sin_pi_spec_amended.1 (fun _ => ((0 : ℚ), false)) false
    (-(((1 : ℕ) : ℚ) / 2)) (by norm_num)
  rw [neg_neg, h2, Fend.except_map_ok] at h1
  exact ⟨by norm_num, by norm_num [Fend.usizeMax], h2, h1⟩

/-- Claim C10: for `PiMultiple(n)` with `n ≥ 0`, the exact-sine branch is taken
only when `2n` fits in `usize`: for every integer `k > usize::MAX`, `sin` on
`PiMultiple(k/2)` falls through to the approximation path and returns
exact=false, even though `k/2 · π` is an exact multiple of π/2. -/
theorem C10_sin_exact_branch_needs_usize :
    ∀ (ratSin : ℚ → ℚ × Bool) (k : ℕ), Fend.usizeMax < k →
      Fend.Real.sin ratSin ⟨.Pi ((k : ℚ) / 2)⟩ false =
        .ok (⟨.Simple (ratSin (((k : ℚ) / 2) * Fend.piApprox)).1⟩, false) := by
  intro ratSin k hk
  have h0 : ¬ ((k : ℚ) / 2 < 0) := not_lt.mpr (by positivity)
  rw [Fend.Real.sin_pi_nonneg_eval _ _ _ h0, Fend.Real.sinPiNonneg_approx]
  · rfl
  · rintro ⟨hden, hpos, hle⟩
    rw [show ((k : ℚ) / 2) * 2 = ((k : ℕ) : ℚ) from div_mul_cancel₀ _ two_ne_zero,
      Rat.num_natCast] at hle
    have hle2 : k ≤ Fend.usizeMax := by exact_mod_cast hle
    exact absurd hle2 (not_le.mpr hk)

/-- Witness for C10 at `k = 2^64` with a primitive sine returning `(5, true)`:
the result is `(Simple 5, exact=false)`. -/
theorem C10_sin_exact_branch_needs_usize_witness :
    Fend.usizeMax < 2 ^ 64 ∧
    Fend.Real.sin (fun _ => ((5 : ℚ), true)) ⟨.Pi (((2 ^ 64 : ℕ) : ℚ) / 2)⟩ false =
      .ok (⟨.Simple 5⟩, false) :=
  ⟨by norm_num [Fend.usizeMax],
    C10_sin_exact_branch_needs_usize (fun _ => ((5 : ℚ), true)) (2 ^ 64)
      (by norm_num [Fend.usizeMax])⟩

/-- The exact mathematical value denoted by a stored `Real` representation:
`Simple(r)` denotes the rational `r`, `PiMultiple(n)` denotes `n·π`. -/
noncomputable def Fend.Real.denote : Fend.Real → ℝ
  | ⟨.Simple r⟩ => (r : ℝ)
  | ⟨.Pi n⟩ => (n : ℝ) * Real.pi

theorem Fend.Real.denote_simple (r : ℚ) :
    Fend.Real.denote ⟨.Simple r⟩ = (r : ℝ) := rfl

theorem Fend.Real.denote_pi (n : ℚ) :
    Fend.Real.denote ⟨.Pi n⟩ = (n : ℝ) * Real.pi := rfl

theorem Fend.Real.mul_pi_pi_eval (a b : ℚ) :
    Fend.Real.mul ⟨.Pi a⟩ ⟨.Pi b⟩ false = .ok ⟨.Pi (a * (b * Fend.piApprox))⟩ := by
  show (match (Fend.Real.mk (.Pi b)).approximate false with
    | .error e => (.error e : Except (Fend.IntErr Empty) Fend.Real)
    | .ok approx =>
      (Fend.BigRat.mul a approx false).map (fun r => (⟨.Pi r⟩ : Fend.Real))) = _
  rw [Fend.Real.approximate_pi_false]
  rfl

theorem Fend.piApprox_cast_ne_pi : ((Fend.piApprox : ℚ) : ℝ) ≠ Real.pi :=
  fun h => irrational_pi ⟨Fend.piApprox, h⟩

/-- Claim C1 counterexample: `mul` on `PiMultiple(1) * PiMultiple(1)` returns
the plain (implicitly exact) value `PiMultiple(piApprox)`, whose stored
representation denotes `piApprox·π`, which is not the exact mathematical
product `π·π`; the exactness loss is not reported by any flag. -/
theorem C1_mul_pi_pi_counterexample :
    Fend.Real.mul ⟨.Pi 1⟩ ⟨.Pi 1⟩ false = .ok ⟨.Pi (1 * (1 * Fend.piApprox))⟩ ∧
    Fend.Real.denote ⟨.Pi (1 * (1 * Fend.piApprox))⟩ ≠
      Fend.Real.denote ⟨.Pi 1⟩ * Fend.Real.denote ⟨.Pi 1⟩ := by
  refine ⟨Fend.Real.mul_pi_pi_eval 1 1, ?_⟩
  rw [Fend.Real.denote_pi, Fend.Real.denote_pi, one_mul, one_mul]
  intro h
  rw [Rat.cast_one, one_mul] at h
  exact Fend.piApprox_cast_ne_pi (mul_right_cancel₀ Real.pi_ne_zero h)

/-- Claim C1 (amended): `mul` preserves the exact mathematical product in the
`Simple·Simple`, `Simple·Pi` and `Pi·Simple` cases (the stored representation
denotes exactly the product of the operands' denotations); in the
`Pi·Pi` case it instead approximates the right operand, returning
`PiMultiple(a·(b·piApprox))` through the plain (implicitly exact) channel, and
for nonzero operands that stored representation differs from the exact
product — a silent exactness loss. -/
theorem C1_mul_exactness_amended (a b : ℚ) :
    Fend.Real.mul ⟨.Simple a⟩ ⟨.Simple b⟩ false = .ok ⟨.Simple (a * b)⟩ ∧
    Fend.Real.mul ⟨.Simple a⟩ ⟨.Pi b⟩ false = .ok ⟨.Pi (a * b)⟩ ∧
    Fend.Real.mul ⟨.Pi a⟩ ⟨.Simple b⟩ false = .ok ⟨.Pi (a * b)⟩ ∧
    Fend.Real.denote ⟨.Simple (a * b)⟩ =
      Fend.Real.denote ⟨.Simple a⟩ * Fend.Real.denote ⟨.Simple b⟩ ∧
    Fend.Real.denote ⟨.Pi (a * b)⟩ =
      Fend.Real.denote ⟨.Simple a⟩ * Fend.Real.denote ⟨.Pi b⟩ ∧
    Fend.Real.denote ⟨.Pi (a * b)⟩ =
      Fend.Real.denote ⟨.Pi a⟩ * Fend.Real.denote ⟨.Simple b⟩ ∧
    Fend.Real.mul ⟨.Pi a⟩ ⟨.Pi b⟩ false = .ok ⟨.Pi (a * (b * Fend.piApprox))⟩ ∧
    (a ≠ 0 → b ≠ 0 →
      Fend.Real.denote ⟨.Pi (a * (b * Fend.piApprox))⟩ ≠
        Fend.Real.denote ⟨.Pi a⟩ * Fend.Real.denote ⟨.Pi b⟩) := by
  refine ⟨rfl, rfl, rfl, ?_, ?_, ?_, Fend.Real.mul_pi_pi_eval a b, ?_⟩
  · rw [Fend.Real.denote_simple, Fend.Real.denote_simple, Fend.Real.denote_simple]
    push_cast
    ring
  · rw [Fend.Real.denote_pi, Fend.Real.denote_simple, Fend.Real.denote_pi]
    push_cast
    ring
  · rw [Fend.Real.denote_pi, Fend.Real.denote_pi, Fend.Real.denote_simple]
    push_cast
    ring
  · intro ha hb h
    rw [Fend.Real.denote_pi, Fend.Real.denote_pi, Fend.Real.denote_pi] at h
    push_cast at h
    have ha' : (a : ℝ) ≠ 0 := by exact_mod_cast ha
    have hb' : (b : ℝ) ≠ 0 := by exact_mod_cast hb
    have hab : (a : ℝ) * (b : ℝ) ≠ 0 := mul_ne_zero ha' hb'
    have h5 : (a : ℝ) * (b : ℝ) * (((Fend.piApprox : ℚ) : ℝ) * Real.pi) =
        (a : ℝ) * (b : ℝ) * (Real.pi * Real.pi) := by linear_combination h
    exact Fend.piApprox_cast_ne_pi
      (mul_right_cancel₀ Real.pi_ne_zero (mul_left_cancel₀ hab h5))

/-- Witness for C1 (amended) at `a = b = 1`. -/
theorem C1_mul_exactness_amended_witness :
    ((1 : ℚ) ≠ 0) ∧
    Fend.Real.denote ⟨.Pi (1 * (1 * Fend.piApprox))⟩ ≠
      Fend.Real.denote ⟨.Pi 1⟩ * Fend.Real.denote ⟨.Pi 1⟩ :=
  ⟨one_ne_zero,
    (C1_mul_exactness_amended 1 1).2.2.2.2.2.2.2 one_ne_zero one_ne_zero⟩
